import Mathlib

/-!
Shallow embedding of the PDF-to-RAG chunk pipeline of this repository.

Text content is modelled as `List Char` (one element per Unicode code point;
all characters appearing in the verification inputs are BMP characters, for
which JavaScript's UTF-16 `String.length` agrees with the code-point count).
JavaScript regular-expression operations are embedded as executable functions
on `List Char`; each definition carries a comment giving the regex of the
source it models.
-/

/-- Whitespace test modelling the JavaScript regex class `\s`
(space, tab, newline, carriage return, vertical tab, form feed,
no-break space, ideographic space U+3000, BOM U+FEFF). -/
def isJsWs (c : Char) : Bool :=
  c == ' ' || c == '\t' || c == '\n' || c == '\r' ||
  c == Char.ofNat 11 || c == Char.ofNat 12 ||
  c == Char.ofNat 0xa0 || c == Char.ofNat 0x3000 || c == Char.ofNat 0xfeff

/-- ASCII digit, the JavaScript regex class `\d`. -/
def isDigitCh (c : Char) : Bool := '0' ≤ c && c ≤ '9'

/-- ASCII letter, the JavaScript regex class `[a-zA-Z]`. -/
def isAsciiLetterCh (c : Char) : Bool :=
  ('a' ≤ c && c ≤ 'z') || ('A' ≤ c && c ≤ 'Z')

/-- CJK ideograph, the JavaScript regex class `[一-龥]`. -/
def isCJK (c : Char) : Bool :=
  Char.ofNat 0x4e00 ≤ c && c ≤ Char.ofNat 0x9fa5

/-- Character-wise ASCII lowercasing, modelling `String.prototype.toLowerCase`
restricted to the ASCII letters that the case-insensitive patterns use. -/
def lowerList (l : List Char) : List Char := l.map Char.toLower

/-- `String.prototype.trim`: strip `\s` characters from both ends. -/
def trimList (l : List Char) : List Char :=
  ((l.dropWhile isJsWs).reverse.dropWhile isJsWs).reverse

theorem length_dropWhile_le (p : Char → Bool) (l : List Char) :
    (l.dropWhile p).length ≤ l.length := by
  induction l with
  | nil => simp
  | cons c t ih =>
    rw [List.dropWhile_cons]
    split
    · exact Nat.le_trans ih (by simp)
    · exact Nat.le_refl _

theorem length_takeWhile_le (p : Char → Bool) (l : List Char) :
    (l.takeWhile p).length ≤ l.length := by
  induction l with
  | nil => simp
  | cons c t ih =>
    rw [List.takeWhile_cons]
    split
    · simpa using ih
    · simp

/-- Helper for `collapseWs`: `inRun` records whether the previous character
was part of a whitespace run already replaced by a space. -/
def collapseWsGo (inRun : Bool) : List Char → List Char
  | [] => []
  | c :: t =>
    if isJsWs c then
      if inRun then collapseWsGo true t else ' ' :: collapseWsGo true t
    else c :: collapseWsGo false t

/-- `s.replace(/\s+/g, ' ')`: every maximal run of whitespace becomes a
single space. -/
def collapseWs (l : List Char) : List Char := collapseWsGo false l

/-- Rewrite one maximal whitespace run for `s.replace(/\n\s*\n/g, '\n')`:
if the run contains at least two newlines, the greedy match spans from its
first to its last newline and is replaced by a single newline. -/
def transformNlRun (run : List Char) : List Char :=
  if 2 ≤ (run.filter (fun c => c = '\n')).length then
    run.takeWhile (fun c => c ≠ '\n') ++
      '\n' :: (run.reverse.takeWhile (fun c => c ≠ '\n')).reverse
  else run

/-- Helper for `nlPairCollapse`: `run` accumulates (reversed) the current
maximal whitespace run; on reaching its end the run is rewritten by
`transformNlRun` and emitted. -/
def nlRunAux (run : List Char) : List Char → List Char
  | [] => transformNlRun run.reverse
  | c :: t =>
    if isJsWs c then nlRunAux (c :: run) t
    else transformNlRun run.reverse ++ c :: nlRunAux [] t

/-- `s.replace(/\n\s*\n/g, '\n')`.  Every match lies inside one maximal
whitespace run (all matched characters are `\s`), and within a run the
leftmost-greedy match spans from the first newline to the last, so the
replacement rewrites each maximal whitespace run independently
(`transformNlRun` on an empty run is the identity). -/
def nlPairCollapse (l : List Char) : List Char := nlRunAux [] l

/-- Boolean prefix test: does the second list start with the first? -/
def isPrefixList : List Char → List Char → Bool
  | [], _ => true
  | _ :: _, [] => false
  | a :: as, b :: bs => a == b && isPrefixList as bs

/-- Helper for `includesList`: substring occurrence at any position. -/
def includesGo (pat : List Char) : List Char → Bool
  | [] => isPrefixList pat []
  | s@(_ :: t) => isPrefixList pat s || includesGo pat t

/-- `String.prototype.includes`: `pat` occurs as a contiguous substring of
`l`.  (A pattern longer than the receiver can never occur; the initial length
test only short-circuits that case.) -/
def includesList (l pat : List Char) : Bool :=
  if l.length < pat.length then false else includesGo pat l

/-- Split a list at every occurrence of a separator character satisfying
`sep`, modelling `String.prototype.split` with a single-character class:
consecutive separators produce empty pieces. -/
def splitOnPred (sep : Char → Bool) : List Char → List (List Char)
  | [] => [[]]
  | c :: t =>
    match splitOnPred sep t with
    | [] => [[]]
    | g :: gs => if sep c then [] :: g :: gs else (c :: g) :: gs

/-- Join lines back with `'\n'`, the inverse of splitting on newlines. -/
def joinLines : List (List Char) → List Char
  | [] => []
  | [l] => l
  | l :: ls => l ++ '\n' :: joinLines ls

/-- Abbreviation turning a string literal into its code-point list. -/
def toL (s : String) : List Char := s.toList

namespace OptimizeData

/-! Embedding of the chunk optimizer script (src/unnamed/part_009):
constants `MIN_CHUNK_LENGTH`, `MAX_CHUNK_LENGTH`, `SEPARATOR`, and the
functions `splitLongContent` and `optimizeChunks`. -/

def MIN_CHUNK_LENGTH : Nat := 50

def MAX_CHUNK_LENGTH : Nat := 8000

def SEPARATOR : Char := ' '

/-- Chunk metadata fields written by the optimizer.  The JavaScript object
spread `{...chunk.metadata, ...}` keeps unknown fields; we model exactly the
fields the optimizer reads or writes. -/
structure Meta where
  chunkIndex : Nat := 0
  merged : Bool := false
  mergedCount : Option Nat := none
  split : Bool := false
  splitPart : Option Nat := none
  totalParts : Option Nat := none

/-- A chunk as stored in the processed JSON files: content, optional
embedding vector, metadata. -/
structure Chunk where
  content : List Char
  embedding : Option (List Float) := none
  meta : Meta := {}

/-- Sentence separators of `content.split(/[。！？；\n]/)`. -/
def isSentSep (c : Char) : Bool :=
  c == '。' || c == '！' || c == '？' || c == '；' || c == '\n'

/-- The punctuation re-attachment of `splitLongContent`:
`sentence + (content.includes(sentence + '。') ? '。' : ...)`. -/
def punctFor (content s : List Char) : List Char :=
  if includesList content (s ++ ['。']) then ['。']
  else if includesList content (s ++ ['！']) then ['！']
  else if includesList content (s ++ ['？']) then ['？']
  else if includesList content (s ++ ['；']) then ['；']
  else []

/-- The sentence-accumulation loop of `splitLongContent`: `cur` is the
`currentPart` accumulator. -/
def splitGo (content : List Char) (maxLength : Nat) :
    List (List Char) → List Char → List (List Char)
  | [], cur => if 0 < (trimList cur).length then [trimList cur] else []
  | s :: rest, cur =>
    if (trimList s).length = 0 then splitGo content maxLength rest cur
    else
      let swp := s ++ punctFor content s
      if cur.length + swp.length ≤ maxLength then
        splitGo content maxLength rest (cur ++ swp)
      else if 0 < (trimList cur).length then
        trimList cur :: splitGo content maxLength rest swp
      else splitGo content maxLength rest swp

/-- `splitLongContent(content, maxLength)` of part_009: split on sentence
terminators, re-accumulate parts up to `maxLength`, and fall back to
`content.substring(0, maxLength)` only when no part was produced. -/
def splitLongContent (content : List Char) (maxLength : Nat) : List (List Char) :=
  let parts := splitGo content maxLength (splitOnPred isSentSep content) []
  if 0 < parts.length then parts else [content.take maxLength]

/-- Loop state of `optimizeChunks`: the `optimized` output array, the
`currentChunk` accumulator, the `mergedCount` counter, and the global
`statistics` counters the loop mutates. -/
structure OptState where
  optimized : List Chunk := []
  current : Option Chunk := none
  mergedCount : Nat := 0
  statMerged : Nat := 0
  statRemoved : Nat := 0

/-- Chunks created from the parts of a split, with running indices:
`chunkIndex = optimized.length` at each push, `splitPart = j + 1`. -/
def partsToChunks (src : Chunk) (total : Nat) (base : Nat) :
    List (List Char) → Nat → List Chunk
  | [], _ => []
  | p :: ps, j =>
    { content := p
      embedding := src.embedding
      meta := { src.meta with
                  chunkIndex := base + j
                  split := true
                  splitPart := some (j + 1)
                  totalParts := some total } }
      :: partsToChunks src total base ps (j + 1)

/-- One iteration of the `optimizeChunks` loop body. -/
def optStep (st : OptState) (chunk : Chunk) : OptState :=
  if (trimList chunk.content).length = 0 then
    -- empty content: statistics.removedChunks++, continue
    { st with statRemoved := st.statRemoved + 1 }
  else
    let contentLength := (trimList chunk.content).length
    if contentLength < MIN_CHUNK_LENGTH then
      match st.current with
      | some cur =>
        let combined := cur.content ++ SEPARATOR :: chunk.content
        if combined.length ≤ MAX_CHUNK_LENGTH then
          { st with
              current := some { cur with content := combined }
              mergedCount := st.mergedCount + 1
              statMerged := st.statMerged + 1 }
        else
          { st with
              optimized := st.optimized ++ [cur]
              current := some { content := chunk.content
                                embedding := chunk.embedding
                                meta := { chunk.meta with
                                            chunkIndex := st.optimized.length + 1
                                            merged := false } } }
      | none =>
          { st with
              current := some { content := chunk.content
                                embedding := chunk.embedding
                                meta := { chunk.meta with
                                            chunkIndex := st.optimized.length
                                            merged := false } } }
    else if contentLength ≤ MAX_CHUNK_LENGTH then
      let newOpt := match st.current with
        | some cur => st.optimized ++ [cur]
        | none => st.optimized
      { st with
          optimized := newOpt
          current := some { content := chunk.content
                            embedding := chunk.embedding
                            meta := { chunk.meta with
                                        chunkIndex := newOpt.length
                                        merged := decide (0 < st.mergedCount)
                                        mergedCount :=
                                          if 0 < st.mergedCount then some st.mergedCount
                                          else chunk.meta.mergedCount } }
          mergedCount := if 0 < st.mergedCount then 0 else st.mergedCount }
    else
      let base := match st.current with
        | some cur => st.optimized ++ [cur]
        | none => st.optimized
      let parts := splitLongContent chunk.content MAX_CHUNK_LENGTH
      { st with
          optimized := base ++ partsToChunks chunk parts.length base.length parts 0
          current := none }

/-- The post-loop flush of `optimizeChunks`: the remaining `currentChunk` is
merged into the last emitted chunk when it is below `MIN_CHUNK_LENGTH` and a
partner exists and fits, otherwise pushed as-is. -/
def optFinal (st : OptState) : OptState :=
  match st.current with
  | none => st
  | some cur =>
    if (trimList cur.content).length < MIN_CHUNK_LENGTH then
      match st.optimized.getLast? with
      | some last =>
        let combined := last.content ++ SEPARATOR :: cur.content
        if combined.length ≤ MAX_CHUNK_LENGTH then
          { st with
              optimized := st.optimized.dropLast ++
                [{ last with
                     content := combined
                     meta := { last.meta with merged := true } }]
              current := none
              statMerged := st.statMerged + 1 }
        else { st with optimized := st.optimized ++ [cur], current := none }
      | none => { st with optimized := st.optimized ++ [cur], current := none }
    else { st with optimized := st.optimized ++ [cur], current := none }

/-- `optimizeChunks(chunks)` of part_009. -/
def optimizeChunks (chunks : List Chunk) : List Chunk :=
  if chunks.isEmpty then []
  else (optFinal (chunks.foldl optStep {})).optimized

end OptimizeData

namespace PdfProcessor

/-! Embedding of src/src/services/pdfProcessor.ts: the text normalizer
`cleanText`, the model registry `EMBEDDING_MODELS`, the result handling of
`generateEmbedding`, and the per-chunk loop of `processPDF`. -/

/-- At least `n` consecutive ASCII digits start here. -/
def startsWithDigits (n : Nat) (s : List Char) : Bool :=
  n ≤ s.length && (s.take n).all isDigitCh

/-- Four consecutive digits occur somewhere, the regex fragment `\d{4}`
inside `.*\d{4}.*`. -/
def hasFourConsecDigits : List Char → Bool
  | [] => false
  | s@(_ :: t) => startsWithDigits 4 s || hasFourConsecDigits t

/-- Line test for `/^.*出版社.*$/gm`: the line contains 出版社. -/
def pubPat1 (line : List Char) : Bool := includesList line (toL ("出版社"))

/-- Line test for `/^.*Publishing.*$/gim`. -/
def pubPat2 (line : List Char) : Bool :=
  includesList (lowerList line) (toL ("publishing"))

/-- Line test for `/^.*Press.*$/gim`. -/
def pubPat3 (line : List Char) : Bool :=
  includesList (lowerList line) (toL ("press"))

/-- Line test for `/^Copyright.*\d{4}.*$/gim`: starts with Copyright
(case-insensitively) and later holds four consecutive digits. -/
def pubPat4 (line : List Char) : Bool :=
  isPrefixList (toL ("copyright")) (lowerList line) &&
    hasFourConsecDigits (line.drop 9)

/-- Line test for `/^版权所有.*$/gm`: the line starts with 版权所有. -/
def pubPat5 (line : List Char) : Bool := isPrefixList (toL ("版权所有")) line

/-- The ordered `publisherPatterns` list. -/
def publisherPatterns : List (List Char → Bool) :=
  [pubPat1, pubPat2, pubPat3, pubPat4, pubPat5]

/-- Full-width or ASCII colon, the class `[：:]`. -/
def colonCh (c : Char) : Bool := c == '：' || c == ':'

/-- The class `[一-龥a-zA-Z\s]` of the Chinese author patterns. -/
def authorClassCh (c : Char) : Bool :=
  isCJK c || isAsciiLetterCh c || isJsWs c

/-- Line test for `/^KW[：:]\s*[一-龥a-zA-Z\s]+$/gm` (KW one of 作者, 编著,
主编).  Because the character class contains `\s`, the `\s*` plus the
one-or-more class is equivalent to a nonempty remainder lying wholly in the
class. -/
def authorCnPat (kw : List Char) (line : List Char) : Bool :=
  isPrefixList kw line &&
    match line.drop kw.length with
    | c :: rest => colonCh c && !rest.isEmpty && rest.all authorClassCh
    | [] => false

/-- Line test for `/^Author[s]?[：:]\s*[a-zA-Z\s]+$/gim`. -/
def authorEnPat (line : List Char) : Bool :=
  let low := lowerList line
  isPrefixList (toL ("author")) low &&
    (let rest0 := low.drop 6
     let rest1 := if rest0.head? = some 's' then rest0.tail else rest0
     match rest1 with
     | c :: rest => colonCh c && !rest.isEmpty &&
         rest.all (fun d => isAsciiLetterCh d || isJsWs d)
     | [] => false)

/-- Line test for `/^By\s+[a-zA-Z\s]+$/gim`: after `by` a whitespace
character and at least one more character, all in `[a-zA-Z\s]`. -/
def byLinePat (line : List Char) : Bool :=
  let low := lowerList line
  isPrefixList (toL ("by")) low &&
    (let rest := low.drop 2
     2 ≤ rest.length &&
       (match rest with
        | c :: _ => isJsWs c
        | [] => false) &&
       rest.all (fun d => isAsciiLetterCh d || isJsWs d))

/-- The ordered `authorPatterns` list. -/
def authorPatterns : List (List Char → Bool) :=
  [authorCnPat (toL ("作者")), authorCnPat (toL ("编著")),
   authorCnPat (toL ("主编")), authorEnPat, byLinePat]

/-- Line test for `/^第\s*\d+\s*页$/gm`.  The classes `\s` and `\d` are
disjoint, so the greedy scan is deterministic. -/
def hf1Pat (line : List Char) : Bool :=
  match line with
  | c :: rest =>
    c == '第' &&
      (let r1 := rest.dropWhile isJsWs
       !(r1.takeWhile isDigitCh).isEmpty &&
         (r1.dropWhile isDigitCh).dropWhile isJsWs == ['页'])
  | [] => false

/-- Line test for `/^Page\s*\d+$/gim`. -/
def hf2Pat (line : List Char) : Bool :=
  let low := lowerList line
  isPrefixList (toL ("page")) low &&
    (let r := (low.drop 4).dropWhile isJsWs
     !(r.takeWhile isDigitCh).isEmpty && (r.dropWhile isDigitCh).isEmpty)

/-- Line test for `/^\s*\d+\s*$/gm`. -/
def hf3Pat (line : List Char) : Bool :=
  let r := line.dropWhile isJsWs
  !(r.takeWhile isDigitCh).isEmpty &&
    ((r.dropWhile isDigitCh).dropWhile isJsWs).isEmpty

/-- The ordered `headerFooterPatterns` list. -/
def headerFooterPatterns : List (List Char → Bool) :=
  [hf1Pat, hf2Pat, hf3Pat]

/-- `cleaned.replace(/^.*$/gm, '')` for a line-anchored pattern: every line
matching `pred` is replaced by the empty line; the newlines between lines
are kept. -/
def removeMatchingLines (pred : List Char → Bool) (l : List Char) : List Char :=
  joinLines ((splitOnPred (fun c => c == '\n') l).map
    (fun line => if pred line then [] else line))

/-- `patterns.forEach(p => cleaned = cleaned.replace(p, ''))`. -/
def applyLinePatterns (preds : List (List Char → Bool)) (l : List Char) : List Char :=
  preds.foldl (fun s p => removeMatchingLines p s) l

/-- Characters accepted by the garbled-text detector: the regex class
`[一-龥a-zA-Z0-9\s]` together with the listed ASCII punctuation
(its brace, quote, apostrophe, backtick, caret and backslash members are
written by code point). -/
def acceptedPunct : List Char :=
  ['.', ',', ';', ':', '!', '?', '(', ')', '[', ']',
   Char.ofNat 123, Char.ofNat 125, Char.ofNat 34, Char.ofNat 39,
   Char.ofNat 96, '~', '@', '#', '$', '%', Char.ofNat 94, '&', '*',
   '+', '=', '|', Char.ofNat 92, '/', '<', '>', '-']

/-- A character counted by `cleaned.match(/[^...]/g)` in the mojibake
detector. -/
def isWeirdChar (c : Char) : Bool :=
  !(isCJK c || isAsciiLetterCh c || isDigitCh c || isJsWs c ||
    acceptedPunct.contains c)

/-- `weirdCharRatio > 0.2` of the source.  In exact arithmetic
`weird / total > 1/5` is `total < 5 * weird`; the JavaScript float
comparison agrees: at the boundary `total = 5 * weird` the correctly rounded
quotient equals the float literal `0.2` and the strict comparison is false,
and away from the boundary the quotient differs from `1/5` by at least
`1/(5*total)`, far above the rounding error. -/
def garbledFlag (l : List Char) : Bool :=
  decide (0 < l.length) && decide (l.length < 5 * (l.countP isWeirdChar))

/-- Result record of `cleanText`. -/
structure CleanResult where
  cleanedText : List Char
  needsReview : Bool

/-- The initial whitespace collapse of `cleanText`:
`.replace(/\s+/g, ' ').replace(/\n\s*\n/g, '\n').trim()`. -/
def initialCollapse (text : List Char) : List Char :=
  trimList (nlPairCollapse (collapseWs text))

/-- The three ordered pattern passes of `cleanText`. -/
def applyAllPatterns (l : List Char) : List Char :=
  applyLinePatterns headerFooterPatterns
    (applyLinePatterns authorPatterns (applyLinePatterns publisherPatterns l))

/-- The cleaned text after the pattern passes and the second whitespace
collapse, before the over-cleaning guard. -/
def cleanedBeforeGuard (text : List Char) : List Char :=
  trimList (nlPairCollapse (collapseWs (applyAllPatterns (initialCollapse text))))

/-- `cleanText` of pdfProcessor.ts.  The over-cleaning guard
`cleaned.length < text.length * 0.1` compares against the raw input length;
in exact arithmetic it is `10 * cleaned.length < text.length`, and the
JavaScript double computation agrees: `fl(text.length * fl(0.1))` rounds
back to `text.length / 10` exactly when `10 ∣ text.length` (the exact
product lies within half an ulp of the integer), and otherwise the exact
quotient is at least `1/10` away from any integer, far above the rounding
error. -/
def cleanText (text : List Char) : CleanResult :=
  let c := initialCollapse text
  if c.length < 10 then { cleanedText := c, needsReview := true }
  else
    let cleaned := cleanedBeforeGuard text
    if 10 * cleaned.length < text.length then
      { cleanedText := trimList (collapseWs text), needsReview := true }
    else
      { cleanedText := cleaned, needsReview := garbledFlag cleaned }

/-- Static registry entry of `EMBEDDING_MODELS`. -/
structure ModelConfig where
  name : List Char
  dimensions : Nat
  maxTokens : Nat
  description : List Char
  instruction : List Char

/-- The `all-MiniLM-L6-v2` entry, also the fallback default of the
constructor. -/
def miniLML6Config : ModelConfig :=
  { name := toL ("sentence-transformers/all-MiniLM-L6-v2")
    dimensions := 384
    maxTokens := 256
    description := toL ("轻量级英文模型，速度快")
    instruction := [] }

/-- The static model registry `EMBEDDING_MODELS` of pdfProcessor.ts. -/
def EMBEDDING_MODELS : List (List Char × ModelConfig) :=
  [(toL ("bge-large-zh-v1.5"),
    { name := toL ("BAAI/bge-large-zh-v1.5")
      dimensions := 1024
      maxTokens := 512
      description := toL ("中文优化的大型模型，性能优异")
      instruction := toL ("为这个句子生成表示以用于检索相关文章：") }),
   (toL ("bge-base-zh-v1.5"),
    { name := toL ("BAAI/bge-base-zh-v1.5")
      dimensions := 768
      maxTokens := 512
      description := toL ("中文优化的基础模型，性能与效率平衡")
      instruction := toL ("为这个句子生成表示以用于检索相关文章：") }),
   (toL ("bge-m3"),
    { name := toL ("BAAI/bge-m3")
      dimensions := 1024
      maxTokens := 8192
      description := toL ("多语言、长文本、多功能模型")
      instruction := [] }),
   (toL ("all-MiniLM-L6-v2"), miniLML6Config),
   (toL ("all-mpnet-base-v2"),
    { name := toL ("sentence-transformers/all-mpnet-base-v2")
      dimensions := 768
      maxTokens := 384
      description := toL ("高质量英文模型")
      instruction := [] }),
   (toL ("all-MiniLM-L12-v2"),
    { name := toL ("sentence-transformers/all-MiniLM-L12-v2")
      dimensions := 384
      maxTokens := 256
      description := toL ("中等规模英文模型")
      instruction := [] }),
   (toL ("gte-qwen2-1.5b"),
    { name := toL ("Alibaba-NLP/gte-Qwen2-1.5B-instruct")
      dimensions := 1536
      maxTokens := 32000
      description := toL ("阿里巴巴最新轻量级多语言模型")
      instruction := [] })]

/-- `EMBEDDING_MODELS[key]`. -/
def lookupModel (key : List Char) : Option ModelConfig :=
  (EMBEDDING_MODELS.find? (fun p => p.1 == key)).map (fun p => p.2)

/-- The constructor's model resolution: an unknown key falls back to the
`all-MiniLM-L6-v2` profile with a warning. -/
def resolveModelConfig (key : List Char) : ModelConfig :=
  (lookupModel key).getD miniLML6Config

/-- Shape of the value produced by the embedding pipeline call, as
discriminated by `generateEmbedding`: a tensor-like object carrying a `data`
field, a nested numeric array (of which the first row is used), a flat
numeric array, or anything else. -/
inductive EmbedResult where
  | tensor (data : List Float)
  | arrOfArr (first : List Float) (rest : List (List Float))
  | arrOfNum (v : List Float)
  | malformed

/-- The result handling of `generateEmbedding` (pdfProcessor.ts lines
194-205).  Note that only the *shape* of the result is inspected; the
length of the produced vector is never compared with the model profile's
`dimensions`. -/
def extractEmbedding : EmbedResult → Except String (List Float)
  | .tensor d => .ok d
  | .arrOfArr f _ => .ok f
  | .arrOfNum v => .ok v
  | .malformed => .error ("模型返回的embedding格式不正确")

/-- `generateEmbedding(text)`: prepend the instruction prefix when the
profile has one (prepending the empty prefix is the identity, matching the
falsy-string test of the source), call the pipeline (modelled as the
oracle `pipe`), and extract the vector from the result shape. -/
def generateEmbedding (cfg : ModelConfig) (pipe : List Char → EmbedResult)
    (text : List Char) : Except String (List Float) :=
  extractEmbedding
    (pipe (if cfg.instruction.isEmpty then text else cfg.instruction ++ text))

/-- A chunk produced by `processPDF`: the `embedding` field is present only
when generation succeeded. -/
structure ProcessedChunk where
  content : List Char
  chunkIndex : Nat
  source : List Char
  embedding : Option (List Float) := none

/-- The chunk loop of `processPDF` (pdfProcessor.ts lines 329-352) over the
already split (and `maxChunks`-limited) chunk texts.  `embed i t` is the
outcome of the embedding call for chunk `i` (the call may fail per chunk);
the `try`/`catch` around the call is `Except.toOption`: on failure the chunk
is pushed without an `embedding` field and the loop continues. -/
def processChunksGo (gen : Bool) (source : List Char)
    (embed : Nat → List Char → Except String (List Float)) :
    Nat → List (List Char) → List ProcessedChunk
  | _, [] => []
  | i, t :: ts =>
    { content := t
      chunkIndex := i
      source := source
      embedding :=
        if gen ∧ 0 < (trimList t).length then (embed i t).toOption else none }
      :: processChunksGo gen source embed (i + 1) ts

/-- The chunk-processing phase of `processPDF`, indices starting at 0. -/
def processChunks (gen : Bool) (source : List Char)
    (embed : Nat → List Char → Except String (List Float))
    (texts : List (List Char)) : List ProcessedChunk :=
  processChunksGo gen source embed 0 texts

end PdfProcessor

/-! Generic machinery for the unanchored-regex tests and global replacements
used by the content-filter scripts. -/

/-- Substring test: `content.includes(pat)` applied through a pattern list
entry `fun s => testSub pat s`. -/
def testSub (pat : List Char) (s : List Char) : Bool := includesList s pat

/-- Gap search of a lazy or greedy `.*` between two literals: try the
continuation at the current position, else skip one non-newline character
(`.` never matches a newline) and retry; returns the number of characters
consumed up to and including the continuation's match. -/
def scanGapCont (k : List Char → Option Nat) : List Char → Option Nat
  | [] => k []
  | c :: t =>
    match k (c :: t) with
    | some n => some n
    | none => if c = '\n' then none else (scanGapCont k t).map (· + 1)

/-- Match a chain `A₁.*A₂.*⋯.*Aₙ` starting exactly at the head of `s`:
each literal followed by a (possibly empty) gap of non-newline characters.
Returns the length of the leftmost-shortest match, which is what both a
`test` (existence) and a lazy global replacement need. -/
def chainFrom : List (List Char) → List Char → Option Nat
  | [], _ => some 0
  | seg :: rest, s =>
    if isPrefixList seg s then
      (scanGapCont (fun s2 => chainFrom rest s2) (s.drop seg.length)).map
        (seg.length + ·)
    else none

/-- Unanchored test of a chain `A₁.*A₂.*⋯.*Aₙ` at any start position. -/
def existsChain (segs : List (List Char)) : List Char → Bool
  | [] => (chainFrom segs []).isSome
  | s@(_ :: t) => (chainFrom segs s).isSome || existsChain segs t

/-- Test of `/A.*B/`: `A`, a non-newline gap, then `B`. -/
def testSeq2 (a b : List Char) (s : List Char) : Bool := existsChain [a, b] s

/-- `(\(\d+\))` sits exactly here: an opening parenthesis, one or more
digits, a closing parenthesis. -/
def parenNumAt : List Char → Bool
  | '(' :: r =>
    let d := r.takeWhile isDigitCh
    !d.isEmpty && (r.drop d.length).head? = some ')'
  | _ => false

/-- `\(\d+\)` occurs somewhere in the list. -/
def containsParenNum : List Char → Bool
  | [] => false
  | s@(_ :: t) => parenNumAt s || containsParenNum t

/-- Test of `/KW.*\(\d+\)/`: the keyword, then (on the same line, since `.`
excludes newlines) a parenthesised number. -/
def testKwParen (kw : List Char) : List Char → Bool
  | [] => false
  | s@(_ :: t) =>
    (isPrefixList kw s &&
      containsParenNum ((s.drop kw.length).takeWhile (fun c => c ≠ '\n'))) ||
    testKwParen kw t

/-- Test of `/KW\d+/`: the keyword immediately followed by a digit. -/
def testKwDigit (kw : List Char) : List Char → Bool
  | [] => false
  | s@(_ :: t) =>
    (isPrefixList kw s &&
      (match s.drop kw.length with
       | d :: _ => isDigitCh d
       | [] => false)) ||
    testKwDigit kw t

/-- Whole-string test of `/^\d+\/\d+$/`. -/
def wholeSlashNums (s : List Char) : Bool :=
  let d1 := s.takeWhile isDigitCh
  match s.drop d1.length with
  | '/' :: r2 => !d1.isEmpty && !r2.isEmpty && r2.all isDigitCh
  | _ => false

/-- Whole-string test of `/^第.*页$/` (no `m` flag: the anchors are the ends
of the string and `.` forbids newlines anywhere in between). -/
def wholeDiYe (s : List Char) : Bool :=
  s.head? = some '第' && s.getLast? = some '页' &&
    decide (2 ≤ s.length) && !s.contains '\n'

/-- Whole-string test of `/^页码：\d+$/`. -/
def wholeYeMa (s : List Char) : Bool :=
  isPrefixList (toL ("页码：")) s &&
    (let r := s.drop 3
     !r.isEmpty && r.all isDigitCh)

/-- Whole-string test of `/^KW\s*\(\d+\)$/` (the 阅读/点赞 read-count
patterns of the smart filter). -/
def wholeKwWsParen (kw : List Char) (s : List Char) : Bool :=
  isPrefixList kw s &&
    (match (s.drop kw.length).dropWhile isJsWs with
     | '(' :: r =>
       let d := r.takeWhile isDigitCh
       !d.isEmpty && r.drop d.length == [')']
     | _ => false)

/-- Whole-string test of `/^A₁.*?A₂.*?⋯.*?$/` (no `m` flag): the string may
contain no newline at all — every non-literal character is matched by `.` —
and the literals occur in order from the very beginning. -/
def wholeChainNoNl (segs : List (List Char)) (s : List Char) : Bool :=
  !s.contains '\n' && (chainFrom segs s).isSome

theorem length_lt_of_dropWhile_drop_cons (p : Char → Bool) (kw : List Char)
    (c e : Char) (t r2 : List Char)
    (h : (((c :: t).drop kw.length).dropWhile p) = e :: r2) :
    r2.length < t.length + 1 := by
  have h1 := length_dropWhile_le p ((c :: t).drop kw.length)
  rw [h] at h1
  have h2 : ((c :: t).drop kw.length).length ≤ t.length + 1 := by
    simp [List.length_drop]
  simp only [List.length_cons] at h1
  omega

/-- Global replacement of `/KW[^。]*。/g` (or, with `requireStop = false`, of
`/KW[^。]*。?/g`) by the empty string.  The greedy `[^。]*` runs to the next
ideographic full stop or, failing that, to the end of the string; scanning
continues after each replaced span, and a failed occurrence falls through to
the next start position.  Every step consumes at least one character of the
remaining input, so with `fuel` initialised to the input length the
fuel-exhausted arm (which returns the remainder unchanged) is never
reached. -/
def replaceKwBlockF (kw : List Char) (requireStop : Bool) :
    Nat → List Char → List Char
  | 0, s => s
  | _ + 1, [] => []
  | fuel + 1, c :: t =>
    if isPrefixList kw (c :: t) then
      match ((c :: t).drop kw.length).dropWhile (fun d => d ≠ '。') with
      | '。' :: r2 => replaceKwBlockF kw requireStop fuel r2
      | _ =>
        if requireStop then c :: replaceKwBlockF kw requireStop fuel t
        else replaceKwBlockF kw requireStop fuel []
    else c :: replaceKwBlockF kw requireStop fuel t

def replaceKwBlock (kw : List Char) (requireStop : Bool) (s : List Char) :
    List Char :=
  replaceKwBlockF kw requireStop s.length s

theorem length_lt_of_paren_tail (kw : List Char) (c : Char) (t r r2 : List Char)
    (h : (((c :: t).drop kw.length).dropWhile isJsWs) = '(' :: r)
    (h2 : r.drop (r.takeWhile isDigitCh).length = ')' :: r2) :
    r2.length < t.length + 1 := by
  have h1 := length_dropWhile_le isJsWs ((c :: t).drop kw.length)
  rw [h] at h1
  have h4 : (r.drop (r.takeWhile isDigitCh).length).length ≤ r.length := by
    simp [List.length_drop]
  rw [h2] at h4
  have h3 : ((c :: t).drop kw.length).length ≤ t.length + 1 := by
    simp [List.length_drop]
  simp only [List.length_cons] at h1 h4
  omega

/-- Global replacement of `/KW\s*\(\d+\)/g` by the empty string (the
阅读/点赞 read-count removal).  Fuel as for `replaceKwBlockF`: each step
consumes at least one character, so the exhausted arm is never reached. -/
def replaceKwWsParenF (kw : List Char) : Nat → List Char → List Char
  | 0, s => s
  | _ + 1, [] => []
  | fuel + 1, c :: t =>
    if isPrefixList kw (c :: t) then
      match ((c :: t).drop kw.length).dropWhile isJsWs with
      | '(' :: r =>
        match r.drop (r.takeWhile isDigitCh).length with
        | ')' :: r2 =>
          if (r.takeWhile isDigitCh).isEmpty then c :: replaceKwWsParenF kw fuel t
          else replaceKwWsParenF kw fuel r2
        | _ => c :: replaceKwWsParenF kw fuel t
      | _ => c :: replaceKwWsParenF kw fuel t
    else c :: replaceKwWsParenF kw fuel t

def replaceKwWsParen (kw : List Char) (s : List Char) : List Char :=
  replaceKwWsParenF kw s.length s

/-- Lazy global replacement of `/A₁.*?A₂.*?⋯(。?)/g` by the empty string:
at each position the leftmost-shortest chain match (plus the optional
trailing full stop, which the greedy `。?` takes when present) is removed and
scanning continues after it; on an empty match the scanner advances one
character, as JavaScript global replacement does. -/
def replaceChainF (segs : List (List Char)) (optPunct : Bool) :
    Nat → List Char → List Char
  | 0, s => s
  | _ + 1, [] => []
  | fuel + 1, c :: t =>
    match chainFrom segs (c :: t) with
    | some n =>
      let n2 := if optPunct then
          (match (c :: t).drop n with
           | '。' :: _ => n + 1
           | _ => n)
        else n
      if n2 = 0 then c :: replaceChainF segs optPunct fuel t
      else replaceChainF segs optPunct fuel ((c :: t).drop n2)
    | none => c :: replaceChainF segs optPunct fuel t

def replaceChain (segs : List (List Char)) (optPunct : Bool) (s : List Char) :
    List Char :=
  replaceChainF segs optPunct s.length s

namespace ContentFilter

/-! Embedding of scripts/content-filter.js: `FILTER_PATTERNS` (flattened to
`ALL_PATTERNS`), `shouldFilterContent`, `cleanContent` and the per-chunk
loop of `filterFile`.  The filter's control flow depends only on each
chunk's `content` string, so chunks are modelled by their contents; the
object spread that copies the remaining chunk fields and the final
`forEach` re-indexing only touch metadata. -/

/-- The class `[^一-龥\w\s]` of the special-character ratio check
(`\w` is `[A-Za-z0-9_]`). -/
def isSpecialCh (c : Char) : Bool :=
  !(isCJK c || isAsciiLetterCh c || isDigitCh c || c == '_' || isJsWs c)

/-- The class `[\.。，,\s]` of the punctuation-only pattern. -/
def isDotClassCh (c : Char) : Bool :=
  c == '.' || c == '。' || c == '，' || c == ',' || isJsWs c

/-- The class `[　\s]` of the full-width-space pattern. -/
def isU3000Ch (c : Char) : Bool := c == Char.ofNat 0x3000 || isJsWs c

/-- The class `[－—\-\s]` of the dashes-only pattern. -/
def isDashClassCh (c : Char) : Bool :=
  c == '－' || c == '—' || c == '-' || isJsWs c

/-- `ALL_PATTERNS = Object.values(FILTER_PATTERNS).flat()`: copyright,
platform, advertising, author, metadata and empty-content rules, in
source order.  Each entry models the regex named in the comment. -/
def ALL_PATTERNS : List (List Char → Bool) :=
  [ -- copyright
   testSub (toL ("本公众账号分享的资源版权属于原出版机构")),
   testSeq2 (toL ("本资源为电子载体，传播分享仅")) (toL ("限于家庭使用")),
   testSeq2 (toL ("不得以任何理由在商业行为")) (toL ("中使用")),
   testSub (toL ("若喜欢此资源，建议购买实体产品")),
   testSeq2 (toL ("版权所有")) (toL ("翻印必究")),
   testSeq2 (toL ("未经许可")) (toL ("不得转载")),
   testSub (toL ("保留所有权利")),
   -- platform
   testSub (toL ("返回搜狐，查看更多")),
   testSub (toL ("搜狐号系信息发布平台")),
   testSub (toL ("搜狐仅提供信息存储空间服务")),
   testSub (toL ("该文观点仅代表作者本人")),
   testSeq2 (toL ("微信公众号")) (toL ("关注")),
   testSeq2 (toL ("扫码关注")) (toL ("公众号")),
   testSeq2 (toL ("长按二维码")) (toL ("关注")),
   -- advertising
   testKwParen (toL ("阅读")),
   testKwParen (toL ("点赞")),
   testSeq2 (toL ("转发")) (toL ("分享")),
   testSub (toL ("更多精彩内容")),
   testSub (toL ("敬请关注")),
   testSub (toL ("欢迎订阅")),
   testSub (toL ("免费下载")),
   testSub (toL ("限时优惠")),
   -- author
   testSeq2 (toL ("作者：")) (toL ("编辑：")),
   testSub (toL ("责任编辑：")),
   testSeq2 (toL ("审核：")) (toL ("校对：")),
   testSeq2 (toL ("来源：")) (toL ("整理：")),
   testSub (toL ("编者按")),
   testSub (toL ("小编推荐")),
   -- metadata
   wholeSlashNums,
   wholeDiYe,
   wholeYeMa,
   testSeq2 (toL ("文件大小：")) (toL ("MB")),
   testKwDigit (toL ("下载次数：")),
   testSub (toL ("上传时间：")),
   -- empty
   (fun s => s.all isJsWs),
   (fun s => s.all isDotClassCh),
   (fun s => s.all isU3000Ch),
   (fun s => s.all isDashClassCh)]

/-- `shouldFilterContent(content)` of content-filter.js.  The early
returns of the source are the disjuncts in order: falsy/empty content;
trimmed length below 10; any filter pattern matches; special characters
make up more than half the content (`ratio > 0.5` is exactly
`length < 2 * count`, the float boundary `count/length = 0.5` being
exactly representable); fewer than 5 distinct non-whitespace characters
while longer than 20 characters. -/
def shouldFilterContent (content : List Char) : Bool :=
  content.isEmpty ||
  (let trimmed := trimList content
   decide (trimmed.length < 10) ||
   ALL_PATTERNS.any (fun p => p trimmed) ||
   decide (trimmed.length < 2 * trimmed.countP isSpecialCh) ||
   (decide (((trimmed.filter (fun c => !isJsWs c)).dedup).length < 5) &&
    decide (20 < trimmed.length)))

/-- `cleanContent(content)` of content-filter.js: remove the six noise
patterns in order, then collapse whitespace and trim. -/
def cleanContent (content : List Char) : List Char :=
  if content.isEmpty then []
  else
    trimList (collapseWs
      (replaceKwWsParen (toL ("点赞"))
      (replaceKwWsParen (toL ("阅读"))
      (replaceKwBlock (toL ("搜狐号系信息发布平台")) true
      (replaceKwBlock (toL ("声明：该文观点仅代表作者本人")) true
      (replaceKwBlock (toL ("返回搜狐，查看更多")) false
      (replaceKwBlock (toL ("本公众账号分享的资源版权属于原出版机构")) true
        content)))))))

/-- The per-chunk loop of `filterFile` of content-filter.js: a chunk is
dropped (`removedCount++`) when `shouldFilterContent` fires or when the
cleaned content is shorter than 20 characters; otherwise the cleaned
content survives.  Returns the surviving contents in order and the
`removedCount`. -/
def filterChunks : List (List Char) → List (List Char) × Nat
  | [] => ([], 0)
  | c :: rest =>
    let r := filterChunks rest
    if shouldFilterContent c then (r.1, r.2 + 1)
    else
      let cleaned := cleanContent c
      if 20 ≤ cleaned.length then (cleaned :: r.1, r.2) else (r.1, r.2 + 1)

end ContentFilter

namespace SmartFilter

/-! Embedding of the smart content filter (src/unnamed/part_008):
`EXACT_FILTER_PATTERNS`, `CONTENT_CLEANING_PATTERNS`,
`shouldFilterContent`, `cleanContent`, `hasEducationalContent` and the
per-chunk loop of `filterFile`.  As for ContentFilter, chunks are
modelled by their content strings. -/

/-- The class `[\.。，,；;：:\s]`. -/
def isPunctClassCh (c : Char) : Bool :=
  c == '.' || c == '。' || c == '，' || c == ',' || c == '；' || c == ';' ||
  c == '：' || c == ':' || isJsWs c

/-- The class `[－—\-\s]`. -/
def isDashClassCh (c : Char) : Bool :=
  c == '－' || c == '—' || c == '-' || isJsWs c

/-- The literal segments of the whole-paragraph copyright pattern
`/^本公众账号...传播分享仅.*?限于家庭使用.*?不得以任何理由在商业行为.*?中使用.*?若喜欢此资源，建议购买实体产品.*?$/`. -/
def copyrightSegs : List (List Char) :=
  [toL ("本公众账号分享的资源版权属于原出版机构，本资源为电子载体，传播分享仅"),
   toL ("限于家庭使用"), toL ("不得以任何理由在商业行为"), toL ("中使用"),
   toL ("若喜欢此资源，建议购买实体产品")]

/-- The literal segments of the Sohu-platform pattern
`/^返回搜狐，查看更多.*?声明：...存储空间服务.*?$/`. -/
def sohuSegs : List (List Char) :=
  [toL ("返回搜狐，查看更多"),
   toL ("声明：该文观点仅代表作者本人，搜狐号系信息发布平台，搜狐仅提供信息存储空间服务")]

/-- `EXACT_FILTER_PATTERNS` of part_008, in source order. -/
def EXACT_FILTER_PATTERNS : List (List Char → Bool) :=
  [wholeChainNoNl copyrightSegs,
   wholeChainNoNl sohuSegs,
   wholeKwWsParen (toL ("阅读")),
   wholeKwWsParen (toL ("点赞")),
   -- /^[\s\n\r　]*$/ (the class equals \s together with U+3000)
   (fun s => s.all (fun c => isJsWs c || c == Char.ofNat 0x3000)),
   (fun s => s.all isPunctClassCh),
   (fun s => s.all isDashClassCh)]

/-- `shouldFilterContent(content)` of part_008: falsy/empty content,
trimmed length below 5, or any exact pattern. -/
def shouldFilterContent (content : List Char) : Bool :=
  content.isEmpty ||
  (let trimmed := trimList content
   decide (trimmed.length < 5) ||
   EXACT_FILTER_PATTERNS.any (fun p => p trimmed))

/-- `cleanContent(content)` of part_008: the four
`CONTENT_CLEANING_PATTERNS` in order (the paragraph patterns with a lazy
chain and an optional trailing 。), then whitespace collapse and trim. -/
def cleanContent (content : List Char) : List Char :=
  if content.isEmpty then []
  else
    trimList (collapseWs
      (replaceKwWsParen (toL ("点赞"))
      (replaceKwWsParen (toL ("阅读"))
      (replaceChain sohuSegs true
      (replaceChain copyrightSegs true content)))))

/-- The `educationalKeywords` list of part_008. -/
def educationalKeywords : List (List Char) :=
  [toL ("课本"), toL ("教材"), toL ("学习"), toL ("练习"), toL ("作业"),
   toL ("考试"), toL ("题目"), toL ("答案"),
   toL ("数学"), toL ("语文"), toL ("英语"), toL ("物理"), toL ("化学"),
   toL ("生物"), toL ("历史"), toL ("地理"),
   toL ("政治"), toL ("科学"), toL ("音乐"), toL ("美术"), toL ("体育"),
   toL ("道德"), toL ("法治"),
   toL ("年级"), toL ("单元"), toL ("章节"), toL ("课时"), toL ("知识"),
   toL ("技能"), toL ("能力"),
   toL ("教学"), toL ("学生"), toL ("老师"), toL ("教师"), toL ("课堂"),
   toL ("教育")]

/-- `hasEducationalContent(content)` of part_008.  (The source computes a
lowercased copy of the content but then tests the keywords against the
original string; the keywords are all Chinese, so the copy is inert.) -/
def hasEducationalContent (content : List Char) : Bool :=
  educationalKeywords.any (fun kw => includesList content kw)

/-- The per-chunk loop of `filterFile` of part_008.  Result:
(surviving contents, removedCount, cleanedCount).  A chunk whose cleaned
content is shorter than 20 characters is preserved verbatim when the
original content has an educational keyword, and dropped otherwise. -/
def filterChunks : List (List Char) → List (List Char) × Nat × Nat
  | [] => ([], 0, 0)
  | c :: rest =>
    let r := filterChunks rest
    if shouldFilterContent c then (r.1, r.2.1 + 1, r.2.2)
    else
      let cleaned := cleanContent c
      if cleaned.length < 20 then
        if hasEducationalContent c then (c :: r.1, r.2.1, r.2.2)
        else (r.1, r.2.1 + 1, r.2.2)
      else
        (cleaned :: r.1, r.2.1,
         if cleaned = c then r.2.2 else r.2.2 + 1)

end SmartFilter

namespace EnhancedFilter

/-! Embedding of the enhanced content filter (src/unnamed/part_011):
`hasEducationalContent` (the extended keyword list) and
`assessContentQuality`, the functions claim C7 cites. -/

/-- The extended `educationalKeywords` list of part_011. -/
def educationalKeywords : List (List Char) :=
  [toL ("课本"), toL ("教材"), toL ("学习"), toL ("练习"), toL ("作业"),
   toL ("考试"), toL ("题目"), toL ("答案"),
   toL ("数学"), toL ("语文"), toL ("英语"), toL ("物理"), toL ("化学"),
   toL ("生物"), toL ("历史"), toL ("地理"),
   toL ("政治"), toL ("科学"), toL ("音乐"), toL ("美术"), toL ("体育"),
   toL ("道德"), toL ("法治"),
   toL ("年级"), toL ("单元"), toL ("章节"), toL ("课时"), toL ("知识"),
   toL ("技能"), toL ("能力"),
   toL ("教学"), toL ("学生"), toL ("老师"), toL ("教师"), toL ("课堂"),
   toL ("教育"), toL ("目录"),
   toL ("第一课"), toL ("第二课"), toL ("汉语拼音"), toL ("识字"), toL ("课文")]

/-- `hasEducationalContent(content)` of part_011. -/
def hasEducationalContent (content : List Char) : Bool :=
  educationalKeywords.any (fun kw => includesList content kw)

/-- `content.split(/\s+/)`: pieces between maximal whitespace runs (a run
of consecutive whitespace characters is a single separator). -/
def splitWsAux (prevWs : Bool) : List Char → List (List Char)
  | [] => [[]]
  | c :: t =>
    if isJsWs c then
      if prevWs then splitWsAux true t else [] :: splitWsAux true t
    else
      match splitWsAux false t with
      | [] => [[c]]
      | g :: gs => (c :: g) :: gs

def splitWsRuns (l : List Char) : List (List Char) := splitWsAux false l

/-- `assessContentQuality(content)` of part_011: 0 below 20 characters;
3 with an educational keyword; 0 with fewer than 5 distinct non-whitespace
characters; then by word-repetition ratio
(`ratio = 1 - unique/words`; `ratio > 0.8` is `5*unique < words` and
`ratio > 0.6` is `5*unique < 2*words` in exact arithmetic, and the float
comparisons agree away from and at the exactly-representable boundaries). -/
def assessContentQuality (content : List Char) : Nat :=
  if content.isEmpty then 0
  else
    let trimmed := trimList content
    if trimmed.length < 20 then 0
    else if hasEducationalContent trimmed then 3
    else if ((trimmed.filter (fun c => !isJsWs c)).dedup).length < 5 then 0
    else
      let words := splitWsRuns trimmed
      if 5 * words.dedup.length < words.length then 0
      else if 5 * words.dedup.length < 2 * words.length then 1
      else 2

end EnhancedFilter

namespace OptimizeData

/-- The chunk object built in the short-content branches of
`optimizeChunks` when a fresh accumulator starts. -/
def freshChunk (chunk : Chunk) (idx : Nat) : Chunk :=
  { content := chunk.content
    embedding := chunk.embedding
    meta := { chunk.meta with chunkIndex := idx, merged := false } }

/-- The chunk object built in the in-range branch of `optimizeChunks`. -/
def inbandChunk (chunk : Chunk) (idx : Nat) (mc : Nat) : Chunk :=
  { content := chunk.content
    embedding := chunk.embedding
    meta := { chunk.meta with
                chunkIndex := idx
                merged := decide (0 < mc)
                mergedCount := if 0 < mc then some mc else chunk.meta.mergedCount } }

/-! Branch lemmas for `optStep` and `optFinal`: each states one arm of the
loop body under exactly the conditions the source tests. -/

theorem optStep_blank (st : OptState) (chunk : Chunk)
    (h0 : (trimList chunk.content).length = 0) :
    optStep st chunk = { st with statRemoved := st.statRemoved + 1 } := by
  simp [optStep, h0]

theorem optStep_short_first (st : OptState) (chunk : Chunk)
    (h0 : ¬ (trimList chunk.content).length = 0)
    (h1 : (trimList chunk.content).length < MIN_CHUNK_LENGTH)
    (hc : st.current = none) :
    optStep st chunk =
      { st with current := some (freshChunk chunk st.optimized.length) } := by
  simp [optStep, freshChunk, h0, h1, hc]

theorem optStep_short_merge (st : OptState) (chunk cur : Chunk)
    (h0 : ¬ (trimList chunk.content).length = 0)
    (h1 : (trimList chunk.content).length < MIN_CHUNK_LENGTH)
    (hc : st.current = some cur)
    (h2 : (cur.content ++ SEPARATOR :: chunk.content).length ≤ MAX_CHUNK_LENGTH) :
    optStep st chunk =
      { st with
          current := some { cur with content := cur.content ++ SEPARATOR :: chunk.content }
          mergedCount := st.mergedCount + 1
          statMerged := st.statMerged + 1 } := by
  have h2a : cur.content.length + (chunk.content.length + 1) ≤ MAX_CHUNK_LENGTH := by
    simpa using h2
  simp [optStep, h0, h1, hc, h2a]

theorem optStep_short_flush (st : OptState) (chunk cur : Chunk)
    (h0 : ¬ (trimList chunk.content).length = 0)
    (h1 : (trimList chunk.content).length < MIN_CHUNK_LENGTH)
    (hc : st.current = some cur)
    (h2 : ¬ (cur.content ++ SEPARATOR :: chunk.content).length ≤ MAX_CHUNK_LENGTH) :
    optStep st chunk =
      { st with
          optimized := st.optimized ++ [cur]
          current := some (freshChunk chunk (st.optimized.length + 1)) } := by
  have h2a : ¬ cur.content.length + (chunk.content.length + 1) ≤ MAX_CHUNK_LENGTH := by
    simpa using h2
  simp [optStep, freshChunk, h0, h1, hc, h2a]

theorem optStep_inRange_some (st : OptState) (chunk cur : Chunk)
    (h0 : ¬ (trimList chunk.content).length = 0)
    (h1 : ¬ (trimList chunk.content).length < MIN_CHUNK_LENGTH)
    (h2 : (trimList chunk.content).length ≤ MAX_CHUNK_LENGTH)
    (hc : st.current = some cur) :
    optStep st chunk =
      { st with
          optimized := st.optimized ++ [cur]
          current := some (inbandChunk chunk (st.optimized ++ [cur]).length st.mergedCount)
          mergedCount := if 0 < st.mergedCount then 0 else st.mergedCount } := by
  simp [optStep, inbandChunk, h0, h1, h2, hc]

theorem optStep_inRange_none (st : OptState) (chunk : Chunk)
    (h0 : ¬ (trimList chunk.content).length = 0)
    (h1 : ¬ (trimList chunk.content).length < MIN_CHUNK_LENGTH)
    (h2 : (trimList chunk.content).length ≤ MAX_CHUNK_LENGTH)
    (hc : st.current = none) :
    optStep st chunk =
      { st with
          current := some (inbandChunk chunk st.optimized.length st.mergedCount)
          mergedCount := if 0 < st.mergedCount then 0 else st.mergedCount } := by
  simp [optStep, inbandChunk, h0, h1, h2, hc]

theorem optFinal_none (st : OptState) (hc : st.current = none) : optFinal st = st := by
  simp [optFinal, hc]

theorem optFinal_push (st : OptState) (cur : Chunk) (hc : st.current = some cur)
    (h1 : ¬ (trimList cur.content).length < MIN_CHUNK_LENGTH) :
    optFinal st = { st with optimized := st.optimized ++ [cur], current := none } := by
  simp [optFinal, hc, h1]

theorem optFinal_short_nopartner (st : OptState) (cur : Chunk)
    (hc : st.current = some cur)
    (h1 : (trimList cur.content).length < MIN_CHUNK_LENGTH)
    (hl : st.optimized.getLast? = none) :
    optFinal st = { st with optimized := st.optimized ++ [cur], current := none } := by
  simp [optFinal, hc, h1, hl]

theorem optFinal_short_lastmerge (st : OptState) (cur last : Chunk)
    (hc : st.current = some cur)
    (h1 : (trimList cur.content).length < MIN_CHUNK_LENGTH)
    (hl : st.optimized.getLast? = some last)
    (h2 : (last.content ++ SEPARATOR :: cur.content).length ≤ MAX_CHUNK_LENGTH) :
    optFinal st =
      { st with
          optimized := st.optimized.dropLast ++
            [{ last with
                 content := last.content ++ SEPARATOR :: cur.content
                 meta := { last.meta with merged := true } }]
          current := none
          statMerged := st.statMerged + 1 } := by
  have h2a : last.content.length + (cur.content.length + 1) ≤ MAX_CHUNK_LENGTH := by
    simpa using h2
  simp [optFinal, hc, h1, hl, h2a]

theorem optFinal_short_toolong (st : OptState) (cur last : Chunk)
    (hc : st.current = some cur)
    (h1 : (trimList cur.content).length < MIN_CHUNK_LENGTH)
    (hl : st.optimized.getLast? = some last)
    (h2 : ¬ (last.content ++ SEPARATOR :: cur.content).length ≤ MAX_CHUNK_LENGTH) :
    optFinal st = { st with optimized := st.optimized ++ [cur], current := none } := by
  have h2a : ¬ last.content.length + (cur.content.length + 1) ≤ MAX_CHUNK_LENGTH := by
    simpa using h2
  simp [optFinal, hc, h1, hl, h2a]

end OptimizeData

namespace OptimizeData

/-- Contents whose trimmed length lies in the optimizer's `[minLen, maxLen]`
band. -/
def inRangeContent (l : List Char) : Prop :=
  MIN_CHUNK_LENGTH ≤ (trimList l).length ∧ (trimList l).length ≤ MAX_CHUNK_LENGTH

instance (l : List Char) : Decidable (inRangeContent l) := by
  unfold inRangeContent; infer_instance

/-- Running the loop from a state holding an in-band accumulator over
in-band chunks only flushes each accumulator unchanged: the final optimized
contents are the already emitted ones, then the accumulator, then the
remaining inputs, in order. -/
theorem optLoop_inRange_run (rest : List Chunk) :
    ∀ (st : OptState) (cur : Chunk),
    st.current = some cur → st.mergedCount = 0 →
    ¬ (trimList cur.content).length < MIN_CHUNK_LENGTH →
    (∀ c ∈ rest, inRangeContent c.content) →
    (optFinal (List.foldl optStep st rest)).optimized.map Chunk.content
      = st.optimized.map Chunk.content ++ cur.content :: rest.map Chunk.content := by
  induction rest with
  | nil =>
    intro st cur hc hm hcur hall
    rw [List.foldl_nil, optFinal_push st cur hc hcur]
    simp
  | cons c rest ih =>
    intro st cur hc hm hcur hall
    have hcr := hall c (List.mem_cons_self c rest)
    have hminpos : 0 < MIN_CHUNK_LENGTH := by decide
    have h0 : ¬ (trimList c.content).length = 0 := by
      have hx := hcr.1; omega
    have h1 : ¬ (trimList c.content).length < MIN_CHUNK_LENGTH :=
      Nat.not_lt.mpr hcr.1
    rw [List.foldl_cons, optStep_inRange_some st c cur h0 h1 hcr.2 hc]
    have hstep := ih
      { st with
          optimized := st.optimized ++ [cur]
          current := some (inbandChunk c (st.optimized ++ [cur]).length st.mergedCount)
          mergedCount := if 0 < st.mergedCount then 0 else st.mergedCount }
      (inbandChunk c (st.optimized ++ [cur]).length st.mergedCount)
      rfl (by simp [hm]) (by simpa [inbandChunk] using h1)
      (fun x hx => hall x (List.mem_cons_of_mem c hx))
    rw [hstep]
    simp [inbandChunk]

/-- Claim C5 (confirmed).  Re-running the Optimizer on a nonempty chunk
sequence in which every chunk's trimmed content length lies in
`[MIN_CHUNK_LENGTH, MAX_CHUNK_LENGTH]` returns the same contents in the
same order, with the same number of chunks: no merge or split happens. -/
theorem optimizeChunks_idempotent_on_inrange (chunks : List Chunk)
    (hne : chunks ≠ [])
    (hall : ∀ c ∈ chunks, inRangeContent c.content) :
    (optimizeChunks chunks).map Chunk.content = chunks.map Chunk.content ∧
    (optimizeChunks chunks).length = chunks.length := by
  cases chunks with
  | nil => exact absurd rfl hne
  | cons c rest =>
    have hcr := hall c (List.mem_cons_self c rest)
    have hminpos : 0 < MIN_CHUNK_LENGTH := by decide
    have h0 : ¬ (trimList c.content).length = 0 := by
      have hx := hcr.1; omega
    have h1 : ¬ (trimList c.content).length < MIN_CHUNK_LENGTH :=
      Nat.not_lt.mpr hcr.1
    have key : (optimizeChunks (c :: rest)).map Chunk.content
        = (c :: rest).map Chunk.content := by
      unfold optimizeChunks
      rw [if_neg (by simp)]
      rw [List.foldl_cons, optStep_inRange_none {} c h0 h1 hcr.2 rfl]
      refine (optLoop_inRange_run rest _ _ rfl (by simp)
        (by simpa [inbandChunk] using h1)
        (fun x hx => hall x (List.mem_cons_of_mem c hx))).trans ?_
      simp [inbandChunk]
    refine ⟨key, ?_⟩
    have hlen := congrArg List.length key
    simpa using hlen

/-- A concrete already-optimized input for the C5 witness. -/
def exC5 : List Chunk :=
  [{ content := List.replicate 50 'x' }, { content := List.replicate 60 'y' }]

/-- Claim C5 witness: the idempotence theorem applied to two in-band
chunks of lengths 50 and 60. -/
theorem optimizeChunks_idempotent_witness :
    exC5 ≠ [] ∧ (∀ c ∈ exC5, inRangeContent c.content) ∧
    (optimizeChunks exC5).map Chunk.content = exC5.map Chunk.content := by
  have hne : exC5 ≠ [] := by simp [exC5]
  have hall : ∀ c ∈ exC5, inRangeContent c.content := by decide
  exact ⟨hne, hall, (optimizeChunks_idempotent_on_inrange exC5 hne hall).1⟩

end OptimizeData

namespace OptimizeData

/-- Loop invariant for the `maxLen` bound: when every remaining input chunk
has whitespace-trimmed content (so the branch tests see the stored length)
of length at most `MAX_CHUNK_LENGTH`, the split branch is never taken, each
merge is guarded by the `combined.length <= MAX_CHUNK_LENGTH` test, and
every chunk the loop ever emits respects the bound. -/
theorem optLoop_maxlen (rest : List Chunk) :
    ∀ st : OptState,
    (∀ c ∈ rest, trimList c.content = c.content ∧
      c.content.length ≤ MAX_CHUNK_LENGTH) →
    (∀ ch ∈ st.optimized, ch.content.length ≤ MAX_CHUNK_LENGTH) →
    (∀ cur, st.current = some cur → cur.content.length ≤ MAX_CHUNK_LENGTH) →
    ∀ ch ∈ (optFinal (List.foldl optStep st rest)).optimized,
      ch.content.length ≤ MAX_CHUNK_LENGTH := by
  induction rest with
  | nil =>
    intro st hall hopt hcur
    rw [List.foldl_nil]
    cases hc : st.current with
    | none => rw [optFinal_none st hc]; exact hopt
    | some cur =>
      have hcl := hcur cur hc
      by_cases h1 : (trimList cur.content).length < MIN_CHUNK_LENGTH
      · cases hl : st.optimized.getLast? with
        | none =>
          rw [optFinal_short_nopartner st cur hc h1 hl]
          intro ch hch
          rcases List.mem_append.mp hch with h | h
          · exact hopt ch h
          · rw [List.mem_singleton.mp h]; exact hcl
        | some last =>
          by_cases h2 : (last.content ++ SEPARATOR :: cur.content).length ≤ MAX_CHUNK_LENGTH
          · rw [optFinal_short_lastmerge st cur last hc h1 hl h2]
            intro ch hch
            rcases List.mem_append.mp hch with h | h
            · exact hopt ch (List.mem_of_mem_dropLast h)
            · rw [List.mem_singleton.mp h]
              simpa using h2
          · rw [optFinal_short_toolong st cur last hc h1 hl h2]
            intro ch hch
            rcases List.mem_append.mp hch with h | h
            · exact hopt ch h
            · rw [List.mem_singleton.mp h]; exact hcl
      · rw [optFinal_push st cur hc h1]
        intro ch hch
        rcases List.mem_append.mp hch with h | h
        · exact hopt ch h
        · rw [List.mem_singleton.mp h]; exact hcl
  | cons c rest ih =>
    intro st hall hopt hcur
    have hc1 := hall c (List.mem_cons_self c rest)
    have hall2 : ∀ x ∈ rest, trimList x.content = x.content ∧
        x.content.length ≤ MAX_CHUNK_LENGTH :=
      fun x hx => hall x (List.mem_cons_of_mem c hx)
    rw [List.foldl_cons]
    by_cases h0 : (trimList c.content).length = 0
    · rw [optStep_blank st c h0]
      exact ih _ hall2 hopt hcur
    · by_cases h1 : (trimList c.content).length < MIN_CHUNK_LENGTH
      · cases hc : st.current with
        | none =>
          rw [optStep_short_first st c h0 h1 hc]
          refine ih _ hall2 hopt ?_
          intro x hx
          rw [← Option.some.inj hx]
          simpa [freshChunk] using hc1.2
        | some cur =>
          have hcl := hcur cur hc
          by_cases h2 : (cur.content ++ SEPARATOR :: c.content).length ≤ MAX_CHUNK_LENGTH
          · rw [optStep_short_merge st c cur h0 h1 hc h2]
            refine ih _ hall2 hopt ?_
            intro x hx
            rw [← Option.some.inj hx]
            simpa using h2
          · rw [optStep_short_flush st c cur h0 h1 hc h2]
            refine ih _ hall2 ?_ ?_
            · intro ch hch
              rcases List.mem_append.mp hch with h | h
              · exact hopt ch h
              · rw [List.mem_singleton.mp h]; exact hcl
            · intro x hx
              rw [← Option.some.inj hx]
              simpa [freshChunk] using hc1.2
      · have h2 : (trimList c.content).length ≤ MAX_CHUNK_LENGTH := by
          rw [hc1.1]; exact hc1.2
        cases hc : st.current with
        | none =>
          rw [optStep_inRange_none st c h0 h1 h2 hc]
          refine ih _ hall2 hopt ?_
          intro x hx
          rw [← Option.some.inj hx]
          simpa [inbandChunk] using hc1.2
        | some cur =>
          have hcl := hcur cur hc
          rw [optStep_inRange_some st c cur h0 h1 h2 hc]
          refine ih _ hall2 ?_ ?_
          · intro ch hch
            rcases List.mem_append.mp hch with h | h
            · exact hopt ch h
            · rw [List.mem_singleton.mp h]; exact hcl
          · intro x hx
            rw [← Option.some.inj hx]
            simpa [inbandChunk] using hc1.2

/-- Claim C1 (corrected), amended theorem.  Provided every input chunk's
content is whitespace-trimmed and at most `MAX_CHUNK_LENGTH` long, every
chunk emitted by `optimizeChunks` has content length at most
`MAX_CHUNK_LENGTH` (every merge is guarded by the bound and the split
branch is never reached).  The minimum-length half of the original claim is
amended away: a chunk shorter than `MIN_CHUNK_LENGTH` can be emitted at any
position where the pending accumulator is flushed without a merge partner,
not only as one trailing chunk. -/
theorem optimizeChunks_max_bound_of_trimmed (chunks : List Chunk)
    (hall : ∀ c ∈ chunks, trimList c.content = c.content ∧
      c.content.length ≤ MAX_CHUNK_LENGTH) :
    ∀ ch ∈ optimizeChunks chunks, ch.content.length ≤ MAX_CHUNK_LENGTH := by
  unfold optimizeChunks
  by_cases he : chunks.isEmpty
  · rw [if_pos he]
    intro ch hch
    exact absurd hch (by simp)
  · rw [if_neg he]
    refine optLoop_maxlen chunks {} hall (by simp) ?_
    intro cur hc
    exact absurd hc (by simp)

/-- Concrete input for the C1 amended-theorem witness. -/
def exC1W : List Chunk :=
  [{ content := List.replicate 60 'p' }, { content := List.replicate 30 'q' }]

/-- Claim C1 witness: the amended theorem applied to a twochunk trimmed
input. -/
theorem optimizeChunks_max_bound_witness :
    (∀ c ∈ exC1W, trimList c.content = c.content ∧
      c.content.length ≤ MAX_CHUNK_LENGTH) ∧
    (∀ ch ∈ optimizeChunks exC1W, ch.content.length ≤ MAX_CHUNK_LENGTH) := by
  have hall : ∀ c ∈ exC1W, trimList c.content = c.content ∧
      c.content.length ≤ MAX_CHUNK_LENGTH := by decide
  exact ⟨hall, optimizeChunks_max_bound_of_trimmed exC1W hall⟩

/-- A short chunk followed by an in-band chunk: the loop flushes the short
accumulator as soon as the in-band chunk arrives, emitting both contents
unchanged. -/
theorem optimize_short_then_inband (A B : List Char)
    (hA0 : ¬ (trimList A).length = 0)
    (hA1 : (trimList A).length < MIN_CHUNK_LENGTH)
    (hB0 : ¬ (trimList B).length = 0)
    (hB1 : ¬ (trimList B).length < MIN_CHUNK_LENGTH)
    (hB2 : (trimList B).length ≤ MAX_CHUNK_LENGTH) :
    (optimizeChunks [{ content := A }, { content := B }]).map
        (fun ch => ch.content.length) = [A.length, B.length] := by
  unfold optimizeChunks
  rw [if_neg (by simp)]
  rw [List.foldl_cons, optStep_short_first {} { content := A } hA0 hA1 rfl]
  rw [List.foldl_cons, optStep_inRange_some _ { content := B } _ hB0 hB1 hB2 rfl]
  rw [List.foldl_nil, optFinal_push _ _ rfl hB1]
  simp [freshChunk, inbandChunk]

theorem dropWhile_replicate_append (p : Char → Bool) (c : Char) (hp : p c = true)
    (n : Nat) (l : List Char) :
    (List.replicate n c ++ l).dropWhile p = l.dropWhile p := by
  induction n with
  | zero => simp
  | succ k ih => simp [List.replicate_succ, List.dropWhile_cons, hp, ih]

theorem dropWhile_replicate_of_neg (p : Char → Bool) (c : Char) (hp : p c = false)
    (n : Nat) : (List.replicate n c).dropWhile p = List.replicate n c := by
  cases n with
  | zero => simp
  | succ k => simp [List.replicate_succ, List.dropWhile_cons, hp]

theorem dropWhile_replicate_append_of_neg (p : Char → Bool) (c : Char)
    (hp : p c = false) (n : Nat) (hn : 0 < n) (l : List Char) :
    (List.replicate n c ++ l).dropWhile p = List.replicate n c ++ l := by
  cases n with
  | zero => exact absurd hn (by simp)
  | succ k => simp [List.replicate_succ, List.dropWhile_cons, hp]

/-- The C1 counterexample input: a 30-character chunk followed by a chunk of
50 letters and 8001 trailing spaces (trimmed length 50, stored length
8051). -/
def exC1 : List Chunk :=
  [{ content := List.replicate 30 'a' },
   { content := List.replicate 50 'b' ++ List.replicate 8001 ' ' }]

theorem trim_exC1B :
    trimList (List.replicate 50 'b' ++ List.replicate 8001 ' ') =
      List.replicate 50 'b' := by
  unfold trimList
  rw [dropWhile_replicate_append_of_neg isJsWs 'b' (by decide) 50 (by decide)]
  rw [List.reverse_append, List.reverse_replicate, List.reverse_replicate]
  rw [dropWhile_replicate_append isJsWs ' ' (by decide) 8001]
  rw [dropWhile_replicate_of_neg isJsWs 'b' (by decide) 50]
  rw [List.reverse_replicate]

/-- Claim C1 counterexample.  On `exC1`, `optimizeChunks` (with
`minLen = 50`, `maxLen = 8000`) emits the content lengths `[30, 8051]`: the
first (non-trailing) chunk is shorter than `MIN_CHUNK_LENGTH`, and the last
chunk is longer than `MAX_CHUNK_LENGTH` — both halves of the claimed length
band fail. -/
theorem optimizeChunks_band_counterexample :
    (optimizeChunks exC1).map (fun ch => ch.content.length) = [30, 8051] ∧
    30 < MIN_CHUNK_LENGTH ∧ MAX_CHUNK_LENGTH < 8051 := by
  have htrim := trim_exC1B
  have hlen50 : (trimList (List.replicate 50 'b' ++ List.replicate 8001 ' ')).length
      = 50 := by rw [htrim]; simp
  refine ⟨?_, by decide, by decide⟩
  have h := optimize_short_then_inband (List.replicate 30 'a')
    (List.replicate 50 'b' ++ List.replicate 8001 ' ')
    (by decide) (by decide)
    (by rw [hlen50]; decide) (by rw [hlen50]; decide) (by rw [hlen50]; decide)
  rw [show exC1 = [{ content := List.replicate 30 'a' },
    { content := List.replicate 50 'b' ++ List.replicate 8001 ' ' }] from rfl]
  rw [h]
  simp only [List.length_append, List.length_replicate]

end OptimizeData

namespace OptimizeData

/-- The C4 scenario input: 10 chunks of 30 characters each. -/
def exC4 : List Chunk := List.replicate 10 { content := List.replicate 30 'a' }

set_option maxRecDepth 4000 in
/-- Claim C4 counterexample.  On ten 30-character chunks the optimizer does
not merge pairwise into 5 chunks: every short chunk is appended to the same
accumulator while the combined length stays within `MAX_CHUNK_LENGTH`, so a
single chunk is returned. -/
theorem optimizer_ten_short_chunks_counterexample :
    (optimizeChunks exC4).length = 1 ∧ ¬ (optimizeChunks exC4).length = 5 := by
  decide

set_option maxRecDepth 4000 in
/-- Claim C4 (corrected), amended theorem.  On ten 30-character chunks
(`minLen = 50`, `maxLen = 8000`) the optimizer merges all ten into one
chunk of length 309 (10·30 characters plus 9 separator spaces), which
satisfies the length band. -/
theorem optimizer_ten_short_chunks_single_merge :
    (optimizeChunks exC4).map (fun ch => ch.content.length) = [309] ∧
    MIN_CHUNK_LENGTH ≤ 309 ∧ 309 ≤ MAX_CHUNK_LENGTH := by
  decide

theorem splitOnPred_no_sep (sep : Char → Bool) (l : List Char)
    (h : ∀ c ∈ l, sep c = false) : splitOnPred sep l = [l] := by
  induction l with
  | nil => rfl
  | cons c t ih =>
    have hc := h c (List.mem_cons_self c t)
    have ht := ih (fun x hx => h x (List.mem_cons_of_mem c hx))
    simp [splitOnPred, ht, hc]

theorem includesList_longer_false (l pat : List Char) (h : l.length < pat.length) :
    includesList l pat = false := by
  simp [includesList, h]

theorem punctFor_self (content : List Char) : punctFor content content = [] := by
  have h : ∀ c : Char, includesList content (content ++ [c]) = false := by
    intro c
    apply includesList_longer_false
    simp
  simp [punctFor, h]

theorem trimList_nil : trimList [] = [] := rfl

/-- Claim C10 (corrected), amended theorem.  For a content with no sentence
terminator and no newline that is longer than `maxLength` (and not
whitespace-only), `splitLongContent` returns exactly one part: the entire
trimmed content, longer than `maxLength`.  Nothing is truncated or
discarded; the `substring(0, maxLength)` fallback is unreachable because the
single over-long sentence itself becomes a part. -/
theorem splitLongContent_no_sep_returns_whole (content : List Char) (maxLength : Nat)
    (hsep : ∀ c ∈ content, isSentSep c = false)
    (hnb : 0 < (trimList content).length)
    (hlong : maxLength < content.length) :
    splitLongContent content maxLength = [trimList content] := by
  have h1 : ¬ (trimList content).length = 0 := by omega
  have hfit : ¬ (([] : List Char).length +
      (content ++ punctFor content content).length ≤ maxLength) := by
    rw [punctFor_self]
    simp
    omega
  have hparts : splitGo content maxLength [content] [] = [trimList content] := by
    rw [show splitGo content maxLength [content] [] =
        (if (trimList content).length = 0 then splitGo content maxLength [] []
         else
           let swp := content ++ punctFor content content
           if ([] : List Char).length + swp.length ≤ maxLength then
             splitGo content maxLength [] ([] ++ swp)
           else if 0 < (trimList ([] : List Char)).length then
             trimList ([] : List Char) :: splitGo content maxLength [] swp
           else splitGo content maxLength [] swp) from rfl]
    rw [if_neg h1]
    simp only []
    rw [if_neg hfit]
    rw [if_neg (by rw [trimList_nil]; simp)]
    rw [punctFor_self, List.append_nil]
    rw [show splitGo content maxLength [] content =
        (if 0 < (trimList content).length then [trimList content] else []) from rfl]
    rw [if_pos hnb]
  unfold splitLongContent
  rw [splitOnPred_no_sep isSentSep content hsep]
  simp only [hparts]
  rw [if_pos (by simp)]

/-- The C10 concrete input: six letters, no sentence terminator. -/
def exC10 : List Char := List.replicate 6 'a'

/-- Claim C10 counterexample.  `splitLongContent` on a 6-character
terminator-free content with `maxLength = 5` returns the whole 6-character
content as its single part — not the first 5 characters as claimed. -/
theorem splitLongContent_no_truncation_counterexample :
    splitLongContent exC10 5 = [exC10] ∧ 5 < exC10.length ∧
    ¬ splitLongContent exC10 5 = [exC10.take 5] := by
  decide

/-- Claim C10 witness: the amended theorem applied to `exC10` with
`maxLength = 5`. -/
theorem splitLongContent_no_sep_witness :
    (∀ c ∈ exC10, isSentSep c = false) ∧ 0 < (trimList exC10).length ∧
    5 < exC10.length ∧ splitLongContent exC10 5 = [trimList exC10] :=
  ⟨by decide, by decide, by decide,
   splitLongContent_no_sep_returns_whole exC10 5 (by decide) (by decide) (by decide)⟩

end OptimizeData

namespace PdfProcessor

/-- Claim C8 (confirmed).  Whenever the input is not short-circuited
(initial collapse at least 10 characters) and the pattern passes leave the
cleaned text shorter than one tenth of the raw length, `cleanText` discards
the cleaned result and returns the whitespace-collapsed raw text with
`needsReview = true`. -/
theorem cleanText_overclean_guard (text : List Char)
    (hlen : ¬ (initialCollapse text).length < 10)
    (hguard : 10 * (cleanedBeforeGuard text).length < text.length) :
    cleanText text =
      { cleanedText := trimList (collapseWs text), needsReview := true } := by
  simp only [cleanText]
  rw [if_neg hlen, if_pos hguard]

/-- The C8 witness input: a 12-character single line containing 出版社, so
the publisher pattern deletes everything. -/
def exC8 : List Char := toL ("一二三出版社四五六七八九")

/-- Claim C8 witness: the guard theorem applied to `exC8`. -/
theorem cleanText_overclean_guard_witness :
    (¬ (initialCollapse exC8).length < 10) ∧
    (10 * (cleanedBeforeGuard exC8).length < exC8.length) ∧
    cleanText exC8 =
      { cleanedText := trimList (collapseWs exC8), needsReview := true } :=
  ⟨by decide, by decide, cleanText_overclean_guard exC8 (by decide) (by decide)⟩

/-- The C2 scenario input. -/
def exC2 : List Char := toL ("出版社信息\n真实教学内容第一课汉语拼音。")

/-- Claim C2 (code bug), evaluation at the failing input.  Because
`cleanText` collapses every whitespace run — including the newline — to a
space before applying its line-anchored patterns, the publisher pattern sees
one single line containing 出版社 and deletes the entire text; the
over-cleaning guard then restores the whitespace-collapsed original with
`needsReview = true`.  The claimed result (body text only, no review flag)
does not occur. -/
theorem cleanText_publisher_scenario_eval :
    (cleanText exC2).cleanedText = toL ("出版社信息 真实教学内容第一课汉语拼音。") ∧
    (cleanText exC2).needsReview = true ∧
    ¬ ((cleanText exC2).cleanedText = toL ("真实教学内容第一课汉语拼音。") ∧
       (cleanText exC2).needsReview = false) := by
  decide

/-- Model profile, pipeline oracle and text for the C3 counterexample. -/
def exC3cfg : ModelConfig := resolveModelConfig (toL ("all-MiniLM-L6-v2"))

/-- A pipeline whose result is a flat 3-element vector, regardless of the
input text. -/
def exC3pipe : List Char → EmbedResult :=
  fun _ => EmbedResult.arrOfNum [1.0, 2.0, 3.0]

def exC3text : List Char := toL ("教学内容样例文本")

/-- Claim C3 counterexample.  With the `all-MiniLM-L6-v2` profile (declared
`dimensions = 384`) and a model returning a flat 3-element vector, the chunk
loop stores the 3-element embedding on the chunk: no dimension check treats
the mismatch as a failure. -/
theorem embedding_dimension_unchecked_counterexample :
    ((processChunks true (toL ("doc.pdf"))
        (fun _ t => generateEmbedding exC3cfg exC3pipe t) [exC3text]).map
      (fun pc => pc.embedding.map List.length)) = [some 3] ∧
    exC3cfg.dimensions = 384 ∧ ¬ (3 : Nat) = 384 := by
  refine ⟨rfl, by decide, by decide⟩

/-- Claim C3 (corrected), amended theorem.  `generateEmbedding` inspects
only the shape of the pipeline result: whenever the pipeline returns a flat
numeric array `v`, the call succeeds with exactly `v`, whatever `v.length`
and whatever the profile's `dimensions`. -/
theorem generateEmbedding_no_dimension_check (cfg : ModelConfig)
    (pipe : List Char → EmbedResult) (text : List Char) (v : List Float)
    (h : pipe (if cfg.instruction.isEmpty then text else cfg.instruction ++ text)
        = EmbedResult.arrOfNum v) :
    generateEmbedding cfg pipe text = Except.ok v := by
  unfold generateEmbedding
  rw [h]
  rfl

/-- Claim C3 witness: the amended theorem at the counterexample profile,
oracle and text. -/
theorem generateEmbedding_no_dimension_check_witness :
    (exC3pipe (if exC3cfg.instruction.isEmpty then exC3text
        else exC3cfg.instruction ++ exC3text) = EmbedResult.arrOfNum [1.0, 2.0, 3.0]) ∧
    generateEmbedding exC3cfg exC3pipe exC3text = Except.ok [1.0, 2.0, 3.0] :=
  ⟨rfl, generateEmbedding_no_dimension_check exC3cfg exC3pipe exC3text
    [1.0, 2.0, 3.0] rfl⟩

theorem processChunksGo_length (gen : Bool) (source : List Char)
    (embed : Nat → List Char → Except String (List Float)) :
    ∀ (ts : List (List Char)) (i : Nat),
    (processChunksGo gen source embed i ts).length = ts.length := by
  intro ts
  induction ts with
  | nil => intro i; rfl
  | cons t ts ih => intro i; simp [processChunksGo, ih]

theorem processChunksGo_get? (gen : Bool) (source : List Char)
    (embed : Nat → List Char → Except String (List Float)) :
    ∀ (ts : List (List Char)) (i j : Nat),
    (processChunksGo gen source embed i ts).get? j =
      (ts.get? j).map (fun t =>
        { content := t
          chunkIndex := i + j
          source := source
          embedding := if gen ∧ 0 < (trimList t).length then
              (embed (i + j) t).toOption
            else none }) := by
  intro ts
  induction ts with
  | nil => intro i j; simp [processChunksGo]
  | cons t ts ih =>
    intro i j
    cases j with
    | zero => simp [processChunksGo]
    | succ k =>
      have e : i + 1 + k = i + (k + 1) := by omega
      have h := ih (i + 1) k
      rw [e] at h
      simpa [processChunksGo] using h

/-- Claim C9 (confirmed).  In the chunk loop of `processPDF` with embedding
generation enabled, the output has exactly one chunk per input text with the
content preserved in order, the embedding equal to the (caught) outcome of
the per-chunk embedding call, and in particular an embedding call that fails
with an error leaves its chunk present without an embedding, every other
chunk and the total count being unaffected — the document-level result is
produced normally instead of failing. -/
theorem processPDF_embedding_failure_local (source : List Char)
    (embed : Nat → List Char → Except String (List Float))
    (texts : List (List Char)) :
    (processChunks true source embed texts).length = texts.length ∧
    (∀ i t, texts.get? i = some t →
      (processChunks true source embed texts).get? i =
        some { content := t
               chunkIndex := i
               source := source
               embedding := if 0 < (trimList t).length then (embed i t).toOption
                 else none }) ∧
    (∀ i t e, texts.get? i = some t → embed i t = Except.error e →
      (processChunks true source embed texts).get? i =
        some { content := t
               chunkIndex := i
               source := source
               embedding := none }) := by
  refine ⟨processChunksGo_length true source embed texts 0, ?_, ?_⟩
  · intro i t ht
    unfold processChunks
    rw [processChunksGo_get? true source embed texts 0 i, ht]
    simp
  · intro i t e ht he
    unfold processChunks
    rw [processChunksGo_get? true source embed texts 0 i, ht]
    simp [he, Except.toOption]

/-- The C9 witness scenario: five chunk texts, the embedding call failing
exactly on chunk index 1 (the second of five). -/
def exC9texts : List (List Char) :=
  [toL ("甲甲甲"), toL ("乙乙乙"), toL ("丙丙丙"), toL ("丁丁丁"), toL ("戊戊戊")]

def exC9embed : Nat → List Char → Except String (List Float) :=
  fun i _ => if i = 1 then Except.error ("模型加载失败") else Except.ok [0.5]

/-- Claim C9 witness: the failure-locality theorem applied to the
5-chunk scenario with a failure on chunk 1. -/
theorem processPDF_embedding_failure_witness :
    (processChunks true (toL ("doc.pdf")) exC9embed exC9texts).length = 5 ∧
    (processChunks true (toL ("doc.pdf")) exC9embed exC9texts).get? 1 =
      some { content := toL ("乙乙乙")
             chunkIndex := 1
             source := toL ("doc.pdf")
             embedding := none } := by
  have h := processPDF_embedding_failure_local (toL ("doc.pdf")) exC9embed exC9texts
  exact ⟨h.1.trans (by rfl),
    h.2.2 1 (toL ("乙乙乙")) ("模型加载失败") rfl rfl⟩

end PdfProcessor

/-- Claim C6 (confirmed).  In both content-filter scripts, every chunk of a
document is either kept (possibly with rewritten content) or counted in
`removedCount`, which grows by exactly one per dropped chunk: the surviving
count plus the removed count equals the original count. -/
theorem filter_removed_plus_survived_eq_original :
    (∀ chunks : List (List Char),
      (ContentFilter.filterChunks chunks).1.length +
        (ContentFilter.filterChunks chunks).2 = chunks.length) ∧
    (∀ chunks : List (List Char),
      (SmartFilter.filterChunks chunks).1.length +
        (SmartFilter.filterChunks chunks).2.1 = chunks.length) := by
  constructor
  · intro chunks
    induction chunks with
    | nil => rfl
    | cons c rest ih =>
      by_cases h1 : ContentFilter.shouldFilterContent c
      · simp only [ContentFilter.filterChunks, if_pos h1, List.length_cons]
        omega
      · by_cases h2 : 20 ≤ (ContentFilter.cleanContent c).length
        · simp only [ContentFilter.filterChunks, if_neg h1, if_pos h2,
            List.length_cons]
          omega
        · simp only [ContentFilter.filterChunks, if_neg h1, if_neg h2,
            List.length_cons]
          omega
  · intro chunks
    induction chunks with
    | nil => rfl
    | cons c rest ih =>
      by_cases h1 : SmartFilter.shouldFilterContent c
      · simp only [SmartFilter.filterChunks, if_pos h1, List.length_cons]
        omega
      · by_cases h2 : (SmartFilter.cleanContent c).length < 20
        · by_cases h3 : SmartFilter.hasEducationalContent c
          · simp only [SmartFilter.filterChunks, if_neg h1, if_pos h2,
              if_pos h3, List.length_cons]
            omega
          · simp only [SmartFilter.filterChunks, if_neg h1, if_pos h2,
              if_neg h3, List.length_cons]
            omega
        · simp only [SmartFilter.filterChunks, if_neg h1, if_neg h2,
            List.length_cons]
          omega

/-- Claim C7 (corrected), amended theorem.  The distinct-character rule is
length-gated, not unconditional: in content-filter.js a chunk with fewer
than 5 distinct non-whitespace characters is dropped by
`shouldFilterContent` only together with a trimmed length above 20, and in
the enhanced filter `assessContentQuality` such content scores 0 (dropped)
only when no educational keyword is present. -/
theorem distinct_char_rule_requires_length :
    (∀ content : List Char,
      (((trimList content).filter (fun c => !isJsWs c)).dedup).length < 5 →
      20 < (trimList content).length →
      ContentFilter.shouldFilterContent content = true) ∧
    (∀ content : List Char,
      (((trimList content).filter (fun c => !isJsWs c)).dedup).length < 5 →
      EnhancedFilter.hasEducationalContent (trimList content) = false →
      EnhancedFilter.assessContentQuality content = 0) := by
  constructor
  · intro content h1 h2
    simp [ContentFilter.shouldFilterContent, h1, h2]
  · intro content h1 h2
    simp only [EnhancedFilter.assessContentQuality]
    by_cases he : content.isEmpty
    · rw [if_pos he]
    · rw [if_neg he]
      by_cases hlen : (trimList content).length < 20
      · rw [if_pos hlen]
      · rw [if_neg hlen, if_neg (by simp [h2]), if_pos h1]

/-- The C7 counterexample chunk: exactly 20 characters drawn from 4 distinct
characters. -/
def exC7 : List Char := toL ("一二三四一二三四一二三四一二三四一二三四")

/-- Claim C7 counterexample.  `exC7` has 4 distinct characters, yet
content-filter.js does not drop it: `shouldFilterContent` is false (the
distinct-character rule requires length strictly above 20) and the chunk
survives the whole `filterFile` loop with `removedCount = 0`. -/
theorem low_distinct_chunk_survives_counterexample :
    ((exC7.filter (fun c => !isJsWs c)).dedup).length < 5 ∧
    ContentFilter.shouldFilterContent exC7 = false ∧
    ContentFilter.filterChunks [exC7] = ([exC7], 0) := by
  refine ⟨by decide, by decide, by decide⟩

/-- The C7 witness chunk: 24 characters from 4 distinct characters, no
educational keyword. -/
def exC7b : List Char :=
  toL ("一二三四一二三四一二三四一二三四一二三四一二三四")

/-- Claim C7 witness: both halves of the amended theorem applied to
`exC7b`. -/
theorem distinct_char_rule_witness :
    (((trimList exC7b).filter (fun c => !isJsWs c)).dedup).length < 5 ∧
    20 < (trimList exC7b).length ∧
    ContentFilter.shouldFilterContent exC7b = true ∧
    EnhancedFilter.hasEducationalContent (trimList exC7b) = false ∧
    EnhancedFilter.assessContentQuality exC7b = 0 :=
  ⟨by decide, by decide,
   distinct_char_rule_requires_length.1 exC7b (by decide) (by decide),
   by decide,
   distinct_char_rule_requires_length.2 exC7b (by decide) (by decide)⟩
